import Mathlib

/-!
Verification development for the BlackRoad state-synchronization core
(`src/state/sync.py` and its hasher `src/hashing/sha.py`).

Shallow embedding conventions:
* JSON-serializable Python values are embedded as the inductive `Value`;
  a top-level `Dict[str, Any]` is an association list `Obj`.
* `StateHasher.hash_state` normalizes the value (recursively dropping the
  volatile fields and sorting mapping keys) and then takes the SHA-256
  digest of the canonical JSON dump.  The digest of a canonical form is
  modelled by the canonical form itself (`hashState = clean`): digest
  equality corresponds to equality of normalized values, which is the
  intended reading under collision resistance of SHA-256.
* `float` timestamps are modelled as `Rat`; Python `int` as `Int`.
* The in-place mutating methods of `StateManager` become functions from a
  `StateManager` state to a result paired with the new state; a raised
  exception becomes an `Except` error (the Python code raises before any
  mutation, so the error branches carry no new state).
* Backends are abstract ("in production, these would be real clients"):
  operations that call `self._fetch_from_source` are parameterized by a
  fetch oracle `fetch : String → SyncSource → Option SyncState`; the
  concrete stub `_fetch_from_source` of the repository is embedded
  separately as `fetchFromSource` (constantly `none`), and
  `_push_to_source` as `pushToSource` (constantly `true`).
-/

/-- JSON-like Python value (`Any` restricted to JSON-serializable data). -/
inductive Value where
  | vnull : Value
  | vbool : Bool → Value
  | vnum : Int → Value
  | vstr : String → Value
  | varr : List Value → Value
  | vobj : List (String × Value) → Value

mutual
/-- Structural equality of embedded values (Python `==` on JSON data). -/
def beqV : Value → Value → Bool
  | .vnull, .vnull => true
  | .vbool a, .vbool b => a == b
  | .vnum a, .vnum b => a == b
  | .vstr a, .vstr b => a == b
  | .varr a, .varr b => beqVL a b
  | .vobj a, .vobj b => beqOL a b
  | _, _ => false

def beqVL : List Value → List Value → Bool
  | [], [] => true
  | x :: xs, y :: ys => beqV x y && beqVL xs ys
  | _, _ => false

def beqOL : List (String × Value) → List (String × Value) → Bool
  | [], [] => true
  | (k, v) :: xs, (k2, v2) :: ys => k == k2 && beqV v v2 && beqOL xs ys
  | _, _ => false
end

mutual
theorem beqV_sound : ∀ a b, beqV a b = true → a = b
  | .vnull, b => by cases b <;> simp [beqV]
  | .vbool a, b => by cases b <;> simp [beqV]
  | .vnum a, b => by cases b <;> simp [beqV]
  | .vstr a, b => by cases b <;> simp [beqV]
  | .varr a, b => by
      cases b <;> simp [beqV]
      exact fun h => beqVL_sound a _ h
  | .vobj a, b => by
      cases b <;> simp [beqV]
      exact fun h => beqOL_sound a _ h

theorem beqVL_sound : ∀ xs ys, beqVL xs ys = true → xs = ys
  | [], ys => by cases ys <;> simp [beqVL]
  | x :: xs, ys => by
      cases ys with
      | nil => simp [beqVL]
      | cons y ys =>
          intro h
          have h1 : beqV x y = true ∧ beqVL xs ys = true := by
            simpa [beqVL, Bool.and_eq_true] using h
          rw [beqV_sound x y h1.1, beqVL_sound xs ys h1.2]

theorem beqOL_sound : ∀ xs ys, beqOL xs ys = true → xs = ys
  | [], ys => by cases ys <;> simp [beqOL]
  | (k, v) :: xs, ys => by
      cases ys with
      | nil => simp [beqOL]
      | cons p ys =>
          intro h
          have h1 : (k == p.1) = true ∧ beqV v p.2 = true ∧ beqOL xs ys = true := by
            cases p
            simpa [beqOL, Bool.and_eq_true, and_assoc] using h
          have hk : k = p.1 := by simpa using h1.1
          have hv : v = p.2 := beqV_sound v p.2 h1.2.1
          have hxs : xs = ys := beqOL_sound xs ys h1.2.2
          cases p
          simp_all
end

mutual
theorem beqV_refl : ∀ a, beqV a a = true
  | .vnull => rfl
  | .vbool a => by simp [beqV]
  | .vnum a => by simp [beqV]
  | .vstr a => by simp [beqV]
  | .varr a => by simpa [beqV] using beqVL_refl a
  | .vobj a => by simpa [beqV] using beqOL_refl a

theorem beqVL_refl : ∀ xs, beqVL xs xs = true
  | [] => rfl
  | x :: xs => by simp [beqVL, beqV_refl x, beqVL_refl xs]

theorem beqOL_refl : ∀ xs, beqOL xs xs = true
  | [] => rfl
  | (k, v) :: xs => by simp [beqOL, beqV_refl v, beqOL_refl xs]
end

instance : DecidableEq Value := fun a b =>
  if h : beqV a b = true then isTrue (beqV_sound a b h)
  else isFalse fun he => h (he ▸ beqV_refl b)

/-- A Python `Dict[str, Any]`: insertion-ordered association list. -/
abbrev Obj := List (String × Value)

/-- The volatile field names stripped by `StateHasher._normalize_state`. -/
def volatileFields : List String := ["updated_at", "last_modified", "etag", "_metadata"]

/-- Insert a key/value pair into a list sorted by key (ascending). -/
def insertByKey (p : String × Value) : List (String × Value) → List (String × Value)
  | [] => [p]
  | q :: qs => if p.1 ≤ q.1 then p :: q :: qs else q :: insertByKey p qs

/-- Sort an association list by key, as `sorted(obj.items())` does
(keys of a Python dict are unique, so comparison never reaches the values). -/
def sortByKey : List (String × Value) → List (String × Value)
  | [] => []
  | p :: ps => insertByKey p (sortByKey ps)

mutual
/-- `clean` of `StateHasher._normalize_state`: at every mapping, drop
volatile keys, recurse into the remaining values, and order the items by
key.  (The Python comprehension iterates `sorted(obj.items())` and then
filters and cleans; here the items are filtered and cleaned first and
sorted after, which yields the same mapping because sorting compares keys
only, cleaning preserves keys, and the keys of a Python dict are unique.) -/
def clean : Value → Value
  | .vnull => .vnull
  | .vbool b => .vbool b
  | .vnum n => .vnum n
  | .vstr s => .vstr s
  | .varr xs => .varr (cleanList xs)
  | .vobj fs => .vobj (sortByKey (cleanEntries fs))

def cleanList : List Value → List Value
  | [] => []
  | x :: xs => clean x :: cleanList xs

def cleanEntries : List (String × Value) → List (String × Value)
  | [] => []
  | (k, v) :: fs =>
      if k ∈ volatileFields then cleanEntries fs
      else (k, clean v) :: cleanEntries fs
end

/-- Model of a hash digest: the canonical (normalized) form that
`StateHasher.hash_state` serializes and digests. -/
abbrev Digest := Value

/-- `StateHasher.hash_state`: normalize, then digest the canonical JSON.
The digest is modelled by the canonical form itself (see module comment). -/
def hashState (state : Obj) : Digest := clean (.vobj state)

/-- `SyncSource` enum of `src/state/sync.py`. -/
inductive SyncSource where
  | github : SyncSource
  | cloudflare : SyncSource
  | salesforce : SyncSource
  | local : SyncSource
  deriving DecidableEq

/-- The `.value` string of each `SyncSource` member. -/
def SyncSource.val : SyncSource → String
  | .github => "github"
  | .cloudflare => "cloudflare"
  | .salesforce => "salesforce"
  | .local => "local"

/-- `SyncSource(string)` enum lookup; `none` models the raised `ValueError`. -/
def SyncSource.ofString (s : String) : Option SyncSource :=
  if s = "github" then some .github
  else if s = "cloudflare" then some .cloudflare
  else if s = "salesforce" then some .salesforce
  else if s = "local" then some .local
  else none

/-- `ConflictResolution` enum of `src/state/sync.py`. -/
inductive ConflictResolution where
  | last_write_wins : ConflictResolution
  | source_priority : ConflictResolution
  | manual : ConflictResolution
  | merge : ConflictResolution
  deriving DecidableEq

/-- The `.value` string of each `ConflictResolution` member. -/
def ConflictResolution.val : ConflictResolution → String
  | .last_write_wins => "last_write_wins"
  | .source_priority => "source_priority"
  | .manual => "manual"
  | .merge => "merge"

/-- The `SyncState` dataclass: one synchronized state record. -/
structure SyncState where
  key : String
  value : Obj
  hash : Digest
  source : SyncSource
  timestamp : Rat
  version : Int
  metadata : Obj
  deriving DecidableEq

/-- The `SyncConflict` dataclass. -/
structure SyncConflict where
  key : String
  local_state : SyncState
  remote_state : SyncState
  detected_at : Rat
  resolved : Bool
  resolution : Option String
  deriving DecidableEq

/-- The mutable fields of a `StateManager` instance (its configuration and
the three collections `_local_cache`, `_pending_syncs`, `_conflicts`).
The cache is an insertion-ordered association list, as a Python dict. -/
structure StateManager where
  primary_source : SyncSource
  conflict_resolution : ConflictResolution
  local_cache : List (String × SyncState)
  pending_syncs : List String
  conflicts : List SyncConflict
  deriving DecidableEq

/-- `StateManager.__init__` with the default arguments. -/
def StateManager.init : StateManager :=
  { primary_source := .cloudflare
    conflict_resolution := .last_write_wins
    local_cache := []
    pending_syncs := []
    conflicts := [] }

/-- `self._local_cache.get(key)` / `self._local_cache[key]` lookup. -/
def cacheGet (c : List (String × SyncState)) (k : String) : Option SyncState :=
  (c.find? (fun p => p.1 = k)).map (·.2)

/-- `self._local_cache[key] = v`: update in place if the key is present
(a Python dict keeps the entry's position), append otherwise. -/
def cacheSet (c : List (String × SyncState)) (k : String) (v : SyncState) :
    List (String × SyncState) :=
  if c.any (fun p => p.1 = k) then c.map (fun p => if p.1 = k then (k, v) else p)
  else c ++ [(k, v)]

/-- `del self._local_cache[key]` (keys are unique in a dict, so removing
all entries with the key equals removing the one entry). -/
def cacheErase (c : List (String × SyncState)) (k : String) :
    List (String × SyncState) :=
  c.filter (fun p => p.1 ≠ k)

namespace StateManager

/-- `StateManager._fetch_from_source`, as in the repository: the backend
call is stubbed out and every fetch returns `None`. -/
def fetchFromSource (_key : String) (_source : SyncSource) : Option SyncState :=
  none

/-- `StateManager._push_to_source`, as in the repository: the backend call
is stubbed out and every push reports success. -/
def pushToSource (_state : SyncState) (_source : SyncSource) : Bool :=
  true

/-- `StateManager.put`.  `now` is the value of `time.time()` taken by the
`SyncState` constructor.  Returns the new record and the new manager state. -/
def put (m : StateManager) (key : String) (value : Obj)
    (source : Option SyncSource) (now : Rat) : SyncState × StateManager :=
  let source := source.getD .local
  let value_hash := hashState value
  let version : Int :=
    match cacheGet m.local_cache key with
    | some existing => existing.version + 1
    | none => 1
  let state : SyncState :=
    { key := key
      value := value
      hash := value_hash
      source := source
      timestamp := now
      version := version
      metadata := [("updated_by", .vstr "state_manager")] }
  (state,
    { m with
      local_cache := cacheSet m.local_cache key state
      pending_syncs := m.pending_syncs ++ [key] })

/-- `StateManager.delete`: drop the record if present and queue the
tombstone marker `"DELETE:" ++ key`. -/
def delete (m : StateManager) (key : String) : Bool × StateManager :=
  if (cacheGet m.local_cache key).isSome then
    (true,
      { m with
        local_cache := cacheErase m.local_cache key
        pending_syncs := m.pending_syncs ++ ["DELETE:" ++ key] })
  else (false, m)

/-- The result dictionary of `StateManager.sync_all`. -/
structure SyncResults where
  synced : List String
  failed : List String
  conflicts : List String
  deriving DecidableEq

/-- The loop of `sync_all` over the snapshot of `_pending_syncs`.
For a key with a cached record, `_push_to_source` is called for the
Cloudflare and Salesforce backends (always succeeding in this repository)
and the first occurrence of the key is removed from the live pending list;
a key without a cached record is skipped by `continue` and stays pending. -/
def syncAllGo (cache : List (String × SyncState)) :
    List String → List String → SyncResults → SyncResults × List String
  | [], pending, results => (results, pending)
  | key :: rest, pending, results =>
      match cacheGet cache key with
      | none => syncAllGo cache rest pending results
      | some state =>
          let results :=
            [SyncSource.cloudflare, SyncSource.salesforce].foldl
              (fun acc source =>
                if pushToSource state source then
                  { acc with synced := acc.synced ++ [key ++ "@" ++ source.val] }
                else
                  { acc with failed := acc.failed ++ [key ++ "@" ++ source.val] })
              results
          syncAllGo cache rest (pending.erase key) results

/-- `StateManager.sync_all`. -/
def sync_all (m : StateManager) : SyncResults × StateManager :=
  let (results, pending) :=
    syncAllGo m.local_cache m.pending_syncs m.pending_syncs
      { synced := [], failed := [], conflicts := [] }
  (results, { m with pending_syncs := pending })

/-- A conflict as constructed inside `sync_from_primary` / `detect_conflicts`
(the dataclass defaults: `resolved=False`, `resolution=None`). -/
def mkConflict (key : String) (l r : SyncState) (now : Rat) : SyncConflict :=
  { key := key
    local_state := l
    remote_state := r
    detected_at := now
    resolved := false
    resolution := none }

/-- The loop of `sync_from_primary`: per key, fetch from the primary; if a
local record exists and its hash differs from the fetched one, append a
conflict; otherwise install the fetched record and count it. -/
def syncFromPrimaryGo (fetch : String → SyncSource → Option SyncState)
    (now : Rat) : List String → Nat → StateManager → Nat × StateManager
  | [], count, m => (count, m)
  | key :: rest, count, m =>
      match fetch key m.primary_source with
      | none => syncFromPrimaryGo fetch now rest count m
      | some remote =>
          match cacheGet m.local_cache key with
          | some l =>
              if l.hash ≠ remote.hash then
                syncFromPrimaryGo fetch now rest count
                  { m with conflicts := m.conflicts ++ [mkConflict key l remote now] }
              else
                syncFromPrimaryGo fetch now rest (count + 1)
                  { m with local_cache := cacheSet m.local_cache key remote }
          | none =>
              syncFromPrimaryGo fetch now rest (count + 1)
                { m with local_cache := cacheSet m.local_cache key remote }

/-- `StateManager.sync_from_primary`.  `keys = some ks` models passing a
list; `keys or list(self._local_cache.keys())` falls back to the cache's
keys both for `None` and for an empty (falsy) list. -/
def sync_from_primary (fetch : String → SyncSource → Option SyncState)
    (m : StateManager) (keys : Option (List String)) (now : Rat) :
    Nat × StateManager :=
  let keys_to_sync :=
    match keys with
    | some ks => if ks.isEmpty then m.local_cache.map (·.1) else ks
    | none => m.local_cache.map (·.1)
  syncFromPrimaryGo fetch now keys_to_sync 0 m

/-- `StateManager.detect_conflicts`: for every cached key, fetch the remote
record; a conflict is collected when the fetch returned a record, the hashes
differ, and the local version is not `>=` the remote version.  The collected
conflicts are appended to `_conflicts` and returned. -/
def detect_conflicts (fetch : String → SyncSource → Option SyncState)
    (m : StateManager) (now : Rat) : List SyncConflict × StateManager :=
  let conflicts :=
    m.local_cache.filterMap (fun p =>
      match fetch p.1 m.primary_source with
      | some remote =>
          if p.2.hash ≠ remote.hash then
            if p.2.version ≥ remote.version then none
            else some (mkConflict p.1 p.2 remote now)
          else none
      | none => none)
  (conflicts, { m with conflicts := m.conflicts ++ conflicts })

/-- The error taxonomy of `resolve_conflict` (both are `ValueError` in
Python; the spec names them `InvalidArgument` and `UnsupportedResolution`). -/
inductive ResolveError where
  | invalidArgument : ResolveError
  | unsupportedResolution : ResolveError
  deriving DecidableEq

/-- `StateManager.resolve_conflict`.  The Python method mutates `self` and
`conflict` in place; here the `ok` result carries the winning record, the
new manager state, and the updated conflict.  The `error` results model the
`raise` statements, which occur before any mutation.  `if not merged_value`
is Python truthiness: it holds for `None` and for an empty dict. -/
def resolve_conflict (m : StateManager) (conflict : SyncConflict)
    (resolution : ConflictResolution) (merged_value : Option Obj) (now : Rat) :
    Except ResolveError (SyncState × StateManager × SyncConflict) :=
  let winner? : Except ResolveError (SyncState × StateManager) :=
    match resolution with
    | .last_write_wins =>
        if conflict.local_state.timestamp > conflict.remote_state.timestamp then
          .ok (conflict.local_state, m)
        else
          .ok (conflict.remote_state, m)
    | .source_priority => .ok (conflict.remote_state, m)
    | .merge =>
        match merged_value with
        | none => .error .invalidArgument
        | some mv =>
            if mv.isEmpty then .error .invalidArgument
            else .ok (put m conflict.key mv none now)
    | .manual => .error .unsupportedResolution
  match winner? with
  | .error e => .error e
  | .ok (winner, m1) =>
      let conflict := { conflict with resolved := true, resolution := some resolution.val }
      .ok (winner,
        { m1 with
          local_cache := cacheSet m1.local_cache conflict.key winner
          pending_syncs := m1.pending_syncs ++ [conflict.key] },
        conflict)

end StateManager

/-- The dictionary produced by `SyncState.to_dict` / consumed by
`SyncState.from_dict`.  `source` is the enum's string value; the fields
read with `data.get(..., default)` are `Option`s here. -/
structure StateDict where
  key : String
  value : Obj
  hash : Digest
  source : String
  timestamp : Option Rat
  version : Option Int
  metadata : Option Obj
  deriving DecidableEq

/-- `SyncState.to_dict`. -/
def SyncState.to_dict (s : SyncState) : StateDict :=
  { key := s.key
    value := s.value
    hash := s.hash
    source := s.source.val
    timestamp := some s.timestamp
    version := some s.version
    metadata := some s.metadata }

/-- `SyncState.from_dict`: the `hash` field is taken verbatim from the
dictionary; `none` models the `ValueError` raised by `SyncSource(...)` on
an unknown source string.  `now` is the `time.time()` default used when
the timestamp field is missing. -/
def SyncState.from_dict (d : StateDict) (now : Rat) : Option SyncState :=
  match SyncSource.ofString d.source with
  | none => none
  | some src =>
      some
        { key := d.key
          value := d.value
          hash := d.hash
          source := src
          timestamp := d.timestamp.getD now
          version := d.version.getD 1
          metadata := d.metadata.getD [] }

/-- The JSON document written by `save_local` (path and indentation are
outside the model; the document's content is). -/
structure SaveFile where
  version : Int
  timestamp : Rat
  states : List (String × StateDict)
  pending_syncs : List String
  deriving DecidableEq

namespace StateManager

/-- `StateManager.save_local`: snapshot the cache (via `to_dict`) and the
pending queue. -/
def save_local (m : StateManager) (now : Rat) : SaveFile :=
  { version := 1
    timestamp := now
    states := m.local_cache.map (fun p => (p.1, p.2.to_dict))
    pending_syncs := m.pending_syncs }

/-- The loading loop of `load_local`: each saved record is deserialized
with `from_dict` and stored into the cache; a `from_dict` failure models
the exception aborting the call. -/
def loadGo (now : Rat) : List (String × StateDict) → StateManager →
    Option StateManager
  | [], m => some m
  | (key, d) :: rest, m =>
      match SyncState.from_dict d now with
      | none => none
      | some s => loadGo now rest { m with local_cache := cacheSet m.local_cache key s }

/-- `StateManager.load_local`.  `file = none` models a missing file
(`FileNotFoundError` is caught and `0` returned with no state change);
otherwise the saved records are merged into the cache, the pending queue is
replaced, and the new cache size is returned. -/
def load_local (m : StateManager) (file : Option SaveFile) (now : Rat) :
    Option (Nat × StateManager) :=
  match file with
  | none => some (0, m)
  | some f =>
      match loadGo now f.states m with
      | none => none
      | some m1 =>
          let m2 := { m1 with pending_syncs := f.pending_syncs }
          some (m2.local_cache.length, m2)

end StateManager

/-- Boolean form of the record-hash invariant of §3 of the spec: every
cached record's `hash` equals the normalized-content hash of its `value`. -/
def hashInvariantB (c : List (String × SyncState)) : Bool :=
  c.all (fun p => decide (p.2.hash = hashState p.2.value))

/-! Concrete records and manager states used by witnesses and
counterexamples. -/

/-- A record whose `hash` is the recomputed hash of its `value`, as `put`
builds them. -/
def mkRec (k : String) (o : Obj) (v : Int) (ts : Rat) (src : SyncSource) : SyncState :=
  { key := k
    value := o
    hash := hashState o
    source := src
    timestamp := ts
    version := v
    metadata := [] }

def objA : Obj := [("status", .vstr "todo")]

def objB : Obj := [("status", .vstr "doing")]

/-- Local record for key "k", version 1, timestamp 5. -/
def exLocalA : SyncState := mkRec "k" objA 1 5 .local

/-- Local record for key "k", version 5, timestamp 5. -/
def exLocalA5 : SyncState := mkRec "k" objA 5 5 .local

/-- Remote record for key "k" with a different value, version 3, timestamp 5. -/
def exRemoteB3 : SyncState := mkRec "k" objB 3 5 .cloudflare

/-- Fetch oracle: the primary holds `exRemoteB3` for key "k" and nothing else. -/
def exFetchB3 (k : String) (_src : SyncSource) : Option SyncState :=
  if k = "k" then some exRemoteB3 else none

/-- Manager whose cache holds "k" at version 1. -/
def exM1 : StateManager :=
  { StateManager.init with local_cache := [("k", exLocalA)] }

/-- Manager whose cache holds "k" at version 5. -/
def exM2 : StateManager :=
  { StateManager.init with local_cache := [("k", exLocalA5)] }

/-- A conflict between `exLocalA` and `exRemoteB3`: differing hashes,
local version 1 < remote version 3, equal timestamps. -/
def exTie : SyncConflict := StateManager.mkConflict "k" exLocalA exRemoteB3 0

/-- Entries of an association list with no duplicate keys are determined
by their key. -/
theorem keys_nodup_mem_unique {c : List (String × SyncState)}
    (h : (c.map Prod.fst).Nodup) {k : String} {a b : SyncState}
    (ha : (k, a) ∈ c) (hb : (k, b) ∈ c) : a = b := by
  induction c with
  | nil => cases ha
  | cons p rest ih =>
      simp only [List.map_cons, List.nodup_cons] at h
      rcases List.mem_cons.mp ha with ha1 | ha1 <;>
        rcases List.mem_cons.mp hb with hb1 | hb1
      · rw [← ha1] at hb1
        injection hb1 with h1 h2
        exact h2.symm
      · cases ha1
        exact absurd (List.mem_map.mpr ⟨(k, b), hb1, rfl⟩) h.1
      · cases hb1
        exact absurd (List.mem_map.mpr ⟨(k, a), ha1, rfl⟩) h.1
      · exact ih h.2 ha1 hb1

/-- The conflict produced for a cache entry carries that entry's key. -/
theorem detect_entry_key (fetch : String → SyncSource → Option SyncState)
    (src : SyncSource) (now : Rat) (p : String × SyncState) (c : SyncConflict)
    (h : (match fetch p.1 src with
          | some remote =>
              if p.2.hash ≠ remote.hash then
                if p.2.version ≥ remote.version then none
                else some (StateManager.mkConflict p.1 p.2 remote now)
              else none
          | none => none) = some c) :
    c.key = p.1 ∧ c.local_state = p.2 := by
  split at h
  · split_ifs at h with h1 h2
    injection h with h3
    subst h3
    exact ⟨rfl, rfl⟩
  · simp at h

/-- C1: for every key in the local cache, `detect_conflicts` produces a
conflict for that key if and only if the fetch for that key returns a
remote record whose hash differs from the local one and whose version is
strictly greater than the local version; in particular no conflict is
produced when the fetch is absent or when the local version is at least
the remote version. -/
theorem detect_conflicts_conflict_iff
    (fetch : String → SyncSource → Option SyncState) (m : StateManager)
    (now : Rat) (k : String) (l : SyncState)
    (hmem : (k, l) ∈ m.local_cache)
    (hnodup : (m.local_cache.map Prod.fst).Nodup) :
    (∃ c ∈ (StateManager.detect_conflicts fetch m now).1, c.key = k) ↔
      ∃ r, fetch k m.primary_source = some r ∧ l.hash ≠ r.hash ∧
        l.version < r.version := by
  unfold StateManager.detect_conflicts
  simp only []
  constructor
  · rintro ⟨c, hc, hck⟩
    obtain ⟨p, hp, hfp⟩ := List.mem_filterMap.mp hc
    obtain ⟨hkey, hloc⟩ := detect_entry_key fetch m.primary_source now p c hfp
    have hpk : p.1 = k := hkey ▸ hck
    have hpl : p.2 = l := by
      refine keys_nodup_mem_unique hnodup ?_ hmem
      rw [← hpk]
      exact hp
    rw [hpk, hpl] at hfp
    split at hfp
    · rename_i remote heq
      split_ifs at hfp with h1 h2
      exact ⟨remote, heq, h1, lt_of_not_ge h2⟩
    · exact absurd hfp (by simp)
  · rintro ⟨r, hf, hh, hv⟩
    refine ⟨StateManager.mkConflict k l r now, ?_, rfl⟩
    refine List.mem_filterMap.mpr ⟨(k, l), hmem, ?_⟩
    rw [hf]
    simp only [if_pos hh, if_neg (not_le_of_lt hv)]

/-- Closed instance of C1: in `exM1` (local version 1) against the oracle
`exFetchB3` (remote version 3, different hash), a conflict for "k" is
detected. -/
theorem detect_conflicts_conflict_iff_witness :
    (∃ c ∈ (StateManager.detect_conflicts exFetchB3 exM1 0).1, c.key = "k") ↔
      ∃ r, exFetchB3 "k" exM1.primary_source = some r ∧ exLocalA.hash ≠ r.hash ∧
        exLocalA.version < r.version :=
  detect_conflicts_conflict_iff exFetchB3 exM1 0 "k" exLocalA (by decide) (by decide)

/-- The loop of `sync_from_primary` is inert under the repository's stub
fetch: nothing is ever fetched, so nothing is counted or changed. -/
theorem syncFromPrimaryGo_stub (now : Rat) :
    ∀ (ks : List String) (count : Nat) (m : StateManager),
      StateManager.syncFromPrimaryGo StateManager.fetchFromSource now ks count m =
        (count, m)
  | [], _, _ => rfl
  | _ :: ks, count, m => syncFromPrimaryGo_stub now ks count m

/-- C10: the backend fetch helper `_fetch_from_source` of the repository
returns absent for every key and source; consequently `detect_conflicts`
returns the empty list and leaves the manager (conflict log included)
unchanged, and `sync_from_primary` returns 0 and leaves the manager
(cache included) unchanged. -/
theorem fetch_stub_consequences (m : StateManager) (keys : Option (List String))
    (now : Rat) (k : String) (src : SyncSource) :
    StateManager.fetchFromSource k src = none ∧
    StateManager.detect_conflicts StateManager.fetchFromSource m now = ([], m) ∧
    StateManager.sync_from_primary StateManager.fetchFromSource m keys now = (0, m) := by
  refine ⟨rfl, ?_, ?_⟩
  · have h1 : (m.local_cache.filterMap fun p =>
        match StateManager.fetchFromSource p.1 m.primary_source with
        | some remote =>
            if p.2.hash ≠ remote.hash then
              if p.2.version ≥ remote.version then none
              else some (StateManager.mkConflict p.1 p.2 remote now)
            else none
        | none => none) = [] :=
      List.filterMap_eq_nil_iff.mpr (fun a _ => rfl)
    unfold StateManager.detect_conflicts
    rw [h1]
    simp
  · unfold StateManager.sync_from_primary
    cases keys with
    | none => exact syncFromPrimaryGo_stub now _ 0 m
    | some ks =>
        by_cases h : ks.isEmpty <;> simp only [h, if_pos, if_neg, Bool.false_eq_true,
          if_false, if_true] <;> exact syncFromPrimaryGo_stub now _ 0 m

/-- C3 counterexample: on `exTie` the local and remote timestamps are
equal, yet `resolve_conflict` with LAST_WRITE_WINS returns the remote
record, not the local one as the claim states. -/
theorem resolve_lww_tie_counterexample :
    (StateManager.resolve_conflict StateManager.init exTie .last_write_wins none 0).toOption.map
        (fun t => t.1) = some exTie.remote_state ∧
    exTie.local_state.timestamp = exTie.remote_state.timestamp ∧
    exTie.local_state ≠ exTie.remote_state := by
  refine ⟨rfl, rfl, by decide⟩

/-- C3 amended: LAST_WRITE_WINS returns the local record exactly when its
timestamp is strictly greater than the remote timestamp, and the remote
record otherwise — a timestamp tie is resolved in favor of the remote
record, not the local one. -/
theorem resolve_lww_spec (m : StateManager) (c : SyncConflict) (now : Rat) :
    (StateManager.resolve_conflict m c .last_write_wins none now).toOption.map
        (fun t => t.1) =
      some (if c.local_state.timestamp > c.remote_state.timestamp then c.local_state
            else c.remote_state) := by
  by_cases h : c.local_state.timestamp > c.remote_state.timestamp <;>
    simp [StateManager.resolve_conflict, h] <;> exact ⟨_, _, rfl⟩

/-- C5 counterexample: two consecutive `put`s of the same key leave two
entries for it in the pending-sync queue. -/
theorem put_pending_duplicate_counterexample :
    ((StateManager.put (StateManager.put StateManager.init "k" objA none 0).2
        "k" objA none 0).2).pending_syncs = ["k", "k"] := rfl

/-- C5 amended: `put` appends the key to the pending-sync queue
unconditionally — even when the key is already queued — so duplicate
entries accumulate (the occurrence count of the key grows by one on every
`put`). -/
theorem put_pending_append (m : StateManager) (k : String) (v : Obj)
    (src : Option SyncSource) (now : Rat) :
    (StateManager.put m k v src now).2.pending_syncs = m.pending_syncs ++ [k] ∧
    (StateManager.put m k v src now).2.pending_syncs.count k
      = m.pending_syncs.count k + 1 := by
  refine ⟨rfl, ?_⟩
  show (m.pending_syncs ++ [k]).count k = m.pending_syncs.count k + 1
  simp [List.count_append]

/-- C8 counterexample: MERGE with a supplied but empty `merged_value`
(Python-falsy) also fails with InvalidArgument, so InvalidArgument is not
raised exactly when `merged_value` is absent. -/
theorem resolve_merge_empty_counterexample :
    StateManager.resolve_conflict StateManager.init exTie .merge (some []) 0 =
      .error .invalidArgument := rfl

/-- C8 amended: `resolve_conflict` fails with InvalidArgument exactly when
the policy is MERGE and `merged_value` is absent or empty (Python `if not
merged_value` truthiness), and fails with UnsupportedResolution exactly
when the policy is MANUAL; the error is raised before any mutation, so the
embedding's error results carry no changed state. -/
theorem resolve_conflict_error_spec (m : StateManager) (c : SyncConflict)
    (res : ConflictResolution) (mv : Option Obj) (now : Rat) :
    (StateManager.resolve_conflict m c res mv now = .error .invalidArgument ↔
      res = .merge ∧ (mv = none ∨ mv = some [])) ∧
    (StateManager.resolve_conflict m c res mv now = .error .unsupportedResolution ↔
      res = .manual) := by
  cases res <;> rcases mv with _ | (_ | ⟨p, rest⟩) <;>
    by_cases h : c.local_state.timestamp > c.remote_state.timestamp <;>
      simp [StateManager.resolve_conflict, h]

/-- C4 counterexample: a tombstone marker queued by `delete` has no cache
record, so `sync_all` skips it: no push is attempted for it and it is
still in the pending queue when `sync_all` returns. -/
theorem sync_all_tombstone_counterexample :
    (StateManager.sync_all
        { StateManager.init with pending_syncs := ["DELETE:k"] }).2.pending_syncs
      = ["DELETE:k"] ∧
    (StateManager.sync_all
        { StateManager.init with pending_syncs := ["DELETE:k"] }).1.synced = [] :=
  ⟨rfl, rfl⟩

/-- The `sync_all` loop over the snapshot of the pending queue: every
snapshot entry with a cached record contributes two successful pushes and
erases its first occurrence from the live pending list; entries without a
cached record are skipped.  `pre` is the already-scanned part of the live
list and contains no key with a cached record. -/
theorem syncAllGo_spec (cache : List (String × SyncState)) (snap : List String) :
    ∀ (pre : List String) (results : StateManager.SyncResults),
      (∀ a ∈ pre, cacheGet cache a = none) →
      StateManager.syncAllGo cache snap (pre ++ snap) results =
        ({ results with
            synced := results.synced ++
              (snap.filter (fun x => (cacheGet cache x).isSome)).flatMap
                (fun x => [x ++ "@" ++ SyncSource.cloudflare.val,
                           x ++ "@" ++ SyncSource.salesforce.val]) },
         pre ++ snap.filter (fun x => (cacheGet cache x).isNone)) := by
  induction snap with
  | nil =>
      intro pre results hpre
      simp [StateManager.syncAllGo]
  | cons k snap ih =>
      intro pre results hpre
      rcases hk : cacheGet cache k with _ | st
      · have h1 : StateManager.syncAllGo cache (k :: snap) (pre ++ k :: snap) results
            = StateManager.syncAllGo cache snap (pre ++ k :: snap) results := by
          simp [StateManager.syncAllGo, hk]
        have h2 : pre ++ k :: snap = (pre ++ [k]) ++ snap := by simp
        have hpre2 : ∀ a ∈ pre ++ [k], cacheGet cache a = none := by
          intro a ha
          rcases List.mem_append.mp ha with ha | ha
          · exact hpre a ha
          · rw [List.mem_singleton.mp ha]; exact hk
        rw [h1, h2, ih (pre ++ [k]) results hpre2]
        simp [List.filter_cons, hk]
      · have hknotpre : k ∉ pre := fun hin => by
          rw [hpre k hin] at hk; cases hk
        have herase : (pre ++ k :: snap).erase k = pre ++ snap := by
          rw [List.erase_append_right _ hknotpre, List.erase_cons_head]
        have h1 : StateManager.syncAllGo cache (k :: snap) (pre ++ k :: snap) results
            = StateManager.syncAllGo cache snap (pre ++ snap)
                { results with
                  synced := results.synced
                    ++ [k ++ "@" ++ SyncSource.cloudflare.val]
                    ++ [k ++ "@" ++ SyncSource.salesforce.val] } := by
          simp [StateManager.syncAllGo, hk, StateManager.pushToSource, herase]
        rw [h1, ih pre _ hpre]
        simp [List.filter_cons, hk]

/-- C4 amended: when `sync_all` runs, only pending entries that have a
record in the local cache are attempted — each such entry is pushed to
both secondary backends and removed from the pending queue regardless of
per-backend outcome — while entries without a cached record (tombstone
markers queued by `delete`, and any stale keys) are skipped without a push
attempt and remain in the pending queue after `sync_all` returns; the
cache and the conflict log are untouched and no push ever fails in this
repository. -/
theorem sync_all_spec (m : StateManager) :
    (StateManager.sync_all m).2.pending_syncs
        = m.pending_syncs.filter (fun x => (cacheGet m.local_cache x).isNone) ∧
    (StateManager.sync_all m).1.synced
        = (m.pending_syncs.filter (fun x => (cacheGet m.local_cache x).isSome)).flatMap
            (fun x => [x ++ "@" ++ SyncSource.cloudflare.val,
                       x ++ "@" ++ SyncSource.salesforce.val]) ∧
    (StateManager.sync_all m).1.failed = [] ∧
    (StateManager.sync_all m).2.local_cache = m.local_cache ∧
    (StateManager.sync_all m).2.conflicts = m.conflicts := by
  have h := syncAllGo_spec m.local_cache m.pending_syncs [] ⟨[], [], []⟩
    (by intro a ha; cases ha)
  simp only [List.nil_append] at h
  unfold StateManager.sync_all
  rw [h]
  simp

/-- C2 counterexample: `sync_from_primary` checks only the hashes, not the
versions, so a key whose local version 5 dominates the remote version 3 is
still logged as a conflict (and not counted) when the hashes differ —
although the §4.3 rule classifies this as no conflict. -/
theorem sync_from_primary_version_counterexample :
    (StateManager.sync_from_primary exFetchB3 exM2 none 0).2.conflicts
      = [StateManager.mkConflict "k" exLocalA5 exRemoteB3 0] ∧
    (StateManager.sync_from_primary exFetchB3 exM2 none 0).1 = 0 ∧
    exLocalA5.version ≥ exRemoteB3.version ∧
    exM2.conflicts = [] := by
  refine ⟨rfl, rfl, by decide, rfl⟩

/-- C2 amended: for a key targeted by `sync_from_primary` (stated for a
single-key pull; multi-key pulls apply the same rule per key in order):
when a remote record is fetched and a local record exists whose hash
differs — regardless of the version ordering, unlike the §4.3 rule — a
Conflict is appended to the conflict log, nothing is counted, and the
local record is not overwritten; when a remote record is fetched and
either no local record exists or the hashes agree, the remote record is
installed in the cache and counted (even if it equals the local record);
when no remote record is fetched, nothing changes. -/
theorem sync_from_primary_key_rule (fetch : String → SyncSource → Option SyncState)
    (m : StateManager) (k : String) (now : Rat) :
    ((StateManager.sync_from_primary fetch m (some [k]) now).2.conflicts ≠ m.conflicts ↔
      ∃ r l, fetch k m.primary_source = some r ∧ cacheGet m.local_cache k = some l ∧
        l.hash ≠ r.hash) ∧
    (∀ r l, fetch k m.primary_source = some r → cacheGet m.local_cache k = some l →
      l.hash ≠ r.hash →
      (StateManager.sync_from_primary fetch m (some [k]) now).1 = 0 ∧
      (StateManager.sync_from_primary fetch m (some [k]) now).2.local_cache
        = m.local_cache ∧
      (StateManager.sync_from_primary fetch m (some [k]) now).2.conflicts
        = m.conflicts ++ [StateManager.mkConflict k l r now]) ∧
    (∀ r, fetch k m.primary_source = some r →
      (∀ l, cacheGet m.local_cache k = some l → l.hash = r.hash) →
      (StateManager.sync_from_primary fetch m (some [k]) now).1 = 1 ∧
      (StateManager.sync_from_primary fetch m (some [k]) now).2.local_cache
        = cacheSet m.local_cache k r ∧
      (StateManager.sync_from_primary fetch m (some [k]) now).2.conflicts
        = m.conflicts) ∧
    (fetch k m.primary_source = none →
      StateManager.sync_from_primary fetch m (some [k]) now = (0, m)) := by
  have hstep : StateManager.sync_from_primary fetch m (some [k]) now
      = StateManager.syncFromPrimaryGo fetch now [k] 0 m := rfl
  rcases hf : fetch k m.primary_source with _ | r
  · have hgo : StateManager.syncFromPrimaryGo fetch now [k] 0 m = (0, m) := by
      simp [StateManager.syncFromPrimaryGo, hf]
    rw [hstep, hgo]
    simp [hf]
  · rcases hl : cacheGet m.local_cache k with _ | l
    · have hgo : StateManager.syncFromPrimaryGo fetch now [k] 0 m
          = (1, { m with local_cache := cacheSet m.local_cache k r }) := by
        simp [StateManager.syncFromPrimaryGo, hf, hl]
      rw [hstep, hgo]
      simp [hf, hl]
    · by_cases hh : l.hash = r.hash
      · have hgo : StateManager.syncFromPrimaryGo fetch now [k] 0 m
            = (1, { m with local_cache := cacheSet m.local_cache k r }) := by
          simp [StateManager.syncFromPrimaryGo, hf, hl, hh]
        rw [hstep, hgo]
        simp [hf, hl, hh]
      · have hgo : StateManager.syncFromPrimaryGo fetch now [k] 0 m
            = (0, { m with
                conflicts := m.conflicts ++ [StateManager.mkConflict k l r now] }) := by
          simp [StateManager.syncFromPrimaryGo, hf, hl, hh]
        rw [hstep, hgo]
        simp [hf, hl, hh]

/-- Closed instance of C2 amended at the counterexample state: local
version 5, remote version 3, differing hashes. -/
theorem sync_from_primary_key_rule_witness :
    ((StateManager.sync_from_primary exFetchB3 exM2 (some ["k"]) 0).2.conflicts
        ≠ exM2.conflicts ↔
      ∃ r l, exFetchB3 "k" exM2.primary_source = some r ∧
        cacheGet exM2.local_cache "k" = some l ∧ l.hash ≠ r.hash) ∧
    (∀ r l, exFetchB3 "k" exM2.primary_source = some r →
      cacheGet exM2.local_cache "k" = some l → l.hash ≠ r.hash →
      (StateManager.sync_from_primary exFetchB3 exM2 (some ["k"]) 0).1 = 0 ∧
      (StateManager.sync_from_primary exFetchB3 exM2 (some ["k"]) 0).2.local_cache
        = exM2.local_cache ∧
      (StateManager.sync_from_primary exFetchB3 exM2 (some ["k"]) 0).2.conflicts
        = exM2.conflicts ++ [StateManager.mkConflict "k" l r 0]) ∧
    (∀ r, exFetchB3 "k" exM2.primary_source = some r →
      (∀ l, cacheGet exM2.local_cache "k" = some l → l.hash = r.hash) →
      (StateManager.sync_from_primary exFetchB3 exM2 (some ["k"]) 0).1 = 1 ∧
      (StateManager.sync_from_primary exFetchB3 exM2 (some ["k"]) 0).2.local_cache
        = cacheSet exM2.local_cache "k" r ∧
      (StateManager.sync_from_primary exFetchB3 exM2 (some ["k"]) 0).2.conflicts
        = exM2.conflicts) ∧
    (exFetchB3 "k" exM2.primary_source = none →
      StateManager.sync_from_primary exFetchB3 exM2 (some ["k"]) 0 = (0, exM2)) :=
  sync_from_primary_key_rule exFetchB3 exM2 "k" 0

/-- A non-empty merged value used by the MERGE examples. -/
def exMV : Obj := [("merged", .vnum 9)]

/-- C6 counterexample: resolving `exTie` (local version 1, remote version
3, cached local record at version 1) with MERGE produces a record at
version 2, which is not strictly greater than the remote version 3. -/
theorem resolve_merge_version_counterexample :
    (StateManager.resolve_conflict exM1 exTie .merge (some exMV) 0).toOption.map
        (fun t => t.1.version) = some 2 ∧
    (StateManager.resolve_conflict exM1 exTie .merge (some exMV) 0).toOption.map
        (fun t => decide (t.1.version > exTie.remote_state.version)) = some false ∧
    exTie.remote_state.version = 3 :=
  ⟨rfl, rfl, rfl⟩

/-- C6 amended: resolving a conflict with MERGE and a supplied non-empty
`merged_value` performs a cache `put` of the merged value with source
LOCAL (the winning record is installed in the cache and enqueued); the
resulting version is one more than the version of the record currently
cached under the conflict's key (1 if none is cached) — strictly greater
than the cached local version, but not in general strictly greater than
the conflict's remote (or even its local) record version. -/
theorem resolve_merge_spec (m : StateManager) (c : SyncConflict) (mv : Obj)
    (now : Rat) (hmv : mv ≠ []) :
    StateManager.resolve_conflict m c .merge (some mv) now =
      .ok ((StateManager.put m c.key mv none now).1,
        { (StateManager.put m c.key mv none now).2 with
          local_cache := cacheSet (StateManager.put m c.key mv none now).2.local_cache
            c.key (StateManager.put m c.key mv none now).1,
          pending_syncs :=
            (StateManager.put m c.key mv none now).2.pending_syncs ++ [c.key] },
        { c with resolved := true, resolution := some ConflictResolution.merge.val }) ∧
    (StateManager.put m c.key mv none now).1.source = .local ∧
    (StateManager.put m c.key mv none now).1.value = mv ∧
    (StateManager.put m c.key mv none now).1.hash = hashState mv ∧
    (∀ l, cacheGet m.local_cache c.key = some l →
      (StateManager.put m c.key mv none now).1.version = l.version + 1 ∧
      l.version < (StateManager.put m c.key mv none now).1.version) ∧
    (cacheGet m.local_cache c.key = none →
      (StateManager.put m c.key mv none now).1.version = 1) := by
  have hne : mv.isEmpty = false := by
    cases mv
    · exact absurd rfl hmv
    · rfl
  refine ⟨?_, rfl, rfl, rfl, ?_, ?_⟩
  · simp [StateManager.resolve_conflict, hne]
  · intro l hl
    constructor <;> simp [StateManager.put, hl]
  · intro hl
    simp [StateManager.put, hl]

/-- Closed instance of C6 amended at the counterexample state. -/
theorem resolve_merge_spec_witness :
    StateManager.resolve_conflict exM1 exTie .merge (some exMV) 0 =
      .ok ((StateManager.put exM1 exTie.key exMV none 0).1,
        { (StateManager.put exM1 exTie.key exMV none 0).2 with
          local_cache := cacheSet (StateManager.put exM1 exTie.key exMV none 0).2.local_cache
            exTie.key (StateManager.put exM1 exTie.key exMV none 0).1,
          pending_syncs :=
            (StateManager.put exM1 exTie.key exMV none 0).2.pending_syncs ++ [exTie.key] },
        { exTie with resolved := true,
                     resolution := some ConflictResolution.merge.val }) ∧
    (StateManager.put exM1 exTie.key exMV none 0).1.source = .local ∧
    (StateManager.put exM1 exTie.key exMV none 0).1.value = exMV ∧
    (StateManager.put exM1 exTie.key exMV none 0).1.hash = hashState exMV ∧
    (∀ l, cacheGet exM1.local_cache exTie.key = some l →
      (StateManager.put exM1 exTie.key exMV none 0).1.version = l.version + 1 ∧
      l.version < (StateManager.put exM1 exTie.key exMV none 0).1.version) ∧
    (cacheGet exM1.local_cache exTie.key = none →
      (StateManager.put exM1 exTie.key exMV none 0).1.version = 1) :=
  resolve_merge_spec exM1 exTie exMV 0 (by decide)

/-- A snapshot file whose stored hash is not the hash of its value. -/
def exBadFile : SaveFile :=
  { version := 1
    timestamp := 0
    states := [("k",
      { key := "k"
        value := []
        hash := .vstr "bogus"
        source := "local"
        timestamp := some 0
        version := some 1
        metadata := some [] })]
    pending_syncs := [] }

/-- C7 counterexample: `from_dict` takes the `hash` field verbatim from
the file, so `load_local` installs a record whose hash is not the
normalized-content hash of its value — the invariant is not preserved by
`load_local` and the hash is not recomputed there. -/
theorem load_local_hash_counterexample :
    (StateManager.load_local StateManager.init (some exBadFile) 0).map
        (fun r => hashInvariantB r.2.local_cache) = some false := rfl

/-- Updating one cache slot with a well-hashed record preserves the
record-hash invariant. -/
theorem hashInvariantB_cacheSet {c : List (String × SyncState)} {k : String}
    {v : SyncState} (hc : hashInvariantB c = true)
    (hv : v.hash = hashState v.value) :
    hashInvariantB (cacheSet c k v) = true := by
  unfold cacheSet
  split
  · simp only [hashInvariantB, List.all_eq_true] at hc ⊢
    intro p hp
    obtain ⟨q, hq, rfl⟩ := List.mem_map.mp hp
    by_cases hqk : q.1 = k
    · simp [hqk, hv]
    · simpa [hqk] using hc q hq
  · simp only [hashInvariantB, List.all_eq_true, List.mem_append] at hc ⊢
    rintro p (hp | hp)
    · exact hc p hp
    · rw [List.mem_singleton.mp hp]
      simp [hv]

/-- Removing cache entries preserves the record-hash invariant. -/
theorem hashInvariantB_filter {c : List (String × SyncState)}
    {f : String × SyncState → Bool} (hc : hashInvariantB c = true) :
    hashInvariantB (c.filter f) = true := by
  simp only [hashInvariantB, List.all_eq_true] at hc ⊢
  intro p hp
  exact hc p (List.mem_filter.mp hp).1

/-- C7 amended: `put` recomputes the hash — the record it stores always
satisfies hash = hash_state(value) — and `put` and `delete` preserve the
cache-wide record-hash invariant; but the invariant is not preserved by
every operation: `sync_from_primary` installs fetched records and
`load_local` installs file records via `from_dict`, both carrying whatever
hash the input supplies, so there it holds only if the input satisfies it. -/
theorem put_delete_hash_invariant (m : StateManager) (k : String) (v : Obj)
    (src : Option SyncSource) (now : Rat)
    (h : hashInvariantB m.local_cache = true) :
    (StateManager.put m k v src now).1.hash
      = hashState (StateManager.put m k v src now).1.value ∧
    hashInvariantB (StateManager.put m k v src now).2.local_cache = true ∧
    hashInvariantB (StateManager.delete m k).2.local_cache = true := by
  refine ⟨rfl, ?_, ?_⟩
  · exact hashInvariantB_cacheSet h rfl
  · unfold StateManager.delete
    split
    · exact hashInvariantB_filter h
    · exact h

/-- Closed instance of C7 amended on a well-hashed single-entry cache. -/
theorem put_delete_hash_invariant_witness :
    (StateManager.put exM1 "j" objB none 0).1.hash
      = hashState (StateManager.put exM1 "j" objB none 0).1.value ∧
    hashInvariantB (StateManager.put exM1 "j" objB none 0).2.local_cache = true ∧
    hashInvariantB (StateManager.delete exM1 "j").2.local_cache = true :=
  put_delete_hash_invariant exM1 "j" objB none 0 (by decide)

/-- Serializing a record with `to_dict` and reading it back with
`from_dict` reproduces the record exactly. -/
theorem from_dict_to_dict (s : SyncState) (now : Rat) :
    SyncState.from_dict s.to_dict now = some s := by
  obtain ⟨key, value, hash, source, ts, ver, md⟩ := s
  cases source <;> rfl

/-- Setting a key absent from the cache appends the entry. -/
theorem cacheSet_absent {c : List (String × SyncState)} {k : String}
    (v : SyncState) (h : ∀ p ∈ c, p.1 ≠ k) :
    cacheSet c k v = c ++ [(k, v)] := by
  unfold cacheSet
  rw [if_neg]
  intro hany
  obtain ⟨p, hp, hpk⟩ := List.any_eq_true.mp hany
  exact h p hp (by simpa using hpk)

/-- The `load_local` loop over a saved snapshot of records with fresh,
pairwise-distinct keys appends exactly those records to the cache. -/
theorem loadGo_states (now : Rat) (sts : List (String × SyncState)) :
    ∀ (m : StateManager),
      (∀ p ∈ sts, ∀ q ∈ m.local_cache, q.1 ≠ p.1) →
      (sts.map Prod.fst).Nodup →
      StateManager.loadGo now (sts.map (fun p => (p.1, p.2.to_dict))) m =
        some { m with local_cache := m.local_cache ++ sts } := by
  induction sts with
  | nil =>
      intro m _ _
      simp [StateManager.loadGo]
  | cons p rest ih =>
      intro m hdisj hnodup
      obtain ⟨k, s⟩ := p
      have h1 : StateManager.loadGo now
            (((k, s) :: rest).map (fun p => (p.1, p.2.to_dict))) m
          = StateManager.loadGo now (rest.map (fun p => (p.1, p.2.to_dict)))
              { m with local_cache := cacheSet m.local_cache k s } := by
        simp [StateManager.loadGo, from_dict_to_dict]
      have h2 : cacheSet m.local_cache k s = m.local_cache ++ [(k, s)] :=
        cacheSet_absent s (fun q hq => hdisj (k, s) (List.mem_cons_self _ _) q hq)
      have hmap : ((k, s) :: rest).map Prod.fst = k :: rest.map Prod.fst := rfl
      rw [hmap, List.nodup_cons] at hnodup
      have hk_rest : ∀ p ∈ rest, k ≠ p.1 := by
        intro p hp hkp
        exact hnodup.1 (List.mem_map.mpr ⟨p, hp, hkp.symm⟩)
      have hdisj2 : ∀ p ∈ rest, ∀ q ∈ m.local_cache ++ [(k, s)], q.1 ≠ p.1 := by
        intro p hp q hq
        rcases List.mem_append.mp hq with hq | hq
        · exact hdisj p (List.mem_cons_of_mem _ hp) q hq
        · rw [List.mem_singleton.mp hq]
          exact hk_rest p hp
      rw [h1, h2, ih { m with local_cache := m.local_cache ++ [(k, s)] } hdisj2 hnodup.2]
      simp

/-- C9: `save_local` followed by `load_local` (into a manager with an
empty cache) reproduces the saved manager exactly: the same cache — every
key bound to a record with the same value, hash, source, timestamp,
version and metadata, in the same order — and the same pending-sync queue
in the same order. -/
theorem save_load_roundtrip (m m2 : StateManager) (now now2 : Rat)
    (hempty : m2.local_cache = [])
    (hnodup : (m.local_cache.map Prod.fst).Nodup) :
    StateManager.load_local m2 (some (StateManager.save_local m now)) now2 =
      some (m.local_cache.length,
        { m2 with local_cache := m.local_cache,
                  pending_syncs := m.pending_syncs }) := by
  have h := loadGo_states now2 m.local_cache m2
    (by intro p hp q hq; rw [hempty] at hq; cases hq) hnodup
  unfold StateManager.load_local StateManager.save_local
  dsimp only
  rw [h]
  simp [hempty]

/-- A manager with two cached records and a pending queue containing a
tombstone, used to witness the round trip. -/
def exMR : StateManager :=
  { StateManager.init with
    local_cache := [("k", exLocalA), ("j", mkRec "j" [] 1 3 .github)]
    pending_syncs := ["k", "DELETE:x"] }

/-- Closed instance of C9 on a two-record manager. -/
theorem save_load_roundtrip_witness :
    StateManager.load_local StateManager.init
        (some (StateManager.save_local exMR 9)) 11 =
      some (exMR.local_cache.length,
        { StateManager.init with local_cache := exMR.local_cache,
                                 pending_syncs := exMR.pending_syncs }) :=
  save_load_roundtrip exMR StateManager.init 9 11 rfl (by decide)
